import Mathlib

/-!
Verification development for the `aggregator` repository (PietPadda/aggregator).

The Go source is shallowly embedded: SQL rows become structures, queries become
pure functions over lists of rows, the scheduler loop becomes a fuelled
recursion producing an event trace, and external collaborators (the network,
the Go standard library's duration parsing and HTML unescaping) become
function parameters.  Timestamps are modelled as `Int`, nullable columns as
`Option`.
-/

namespace Aggregator

/-! ## Definitions: feed store (`sql/queries`, `sql/schema`) -/

/-- Row of the `feeds` table.  Columns follow the `CreateFeed` query
(`id, created_at, updated_at, name, url, user_id`) plus the nullable
`last_fetched_at` column used by `MarkFeedFetched` and `GetNextFeedToFetch`. -/
structure Feed where
  id : Nat
  createdAt : Int
  updatedAt : Int
  name : String
  url : String
  userId : Nat
  lastFetchedAt : Option Int
  deriving DecidableEq, Repr

/-- Ordering on the `last_fetched_at` column used by
`ORDER BY last_fetched_at ASC NULLS FIRST`: a NULL sorts before every
concrete timestamp, and concrete timestamps compare as integers. -/
def fetchedLe : Option Int → Option Int → Bool
  | none, _ => true
  | some _, none => false
  | some a, some b => a ≤ b

/-- Selection step used by the fold inside `getNextFeedToFetch`. -/
def pickOlder (best g : Feed) : Feed :=
  if fetchedLe best.lastFetchedAt g.lastFetchedAt then best else g

/-- Embedding of the `GetNextFeedToFetch` query
(`SELECT * FROM feeds ORDER BY last_fetched_at ASC NULLS FIRST LIMIT 1`):
one row minimal in the `fetchedLe` order, `none` on an empty table.
Ties are resolved by list position here; the SQL itself fixes no tie-break
(see `nextFeedAdmissible` for the relational semantics). -/
def getNextFeedToFetch : List Feed → Option Feed
  | [] => none
  | f :: rest => some (rest.foldl pickOlder f)

/-- Relational semantics of `GetNextFeedToFetch`: the query may return any
row of the table whose `last_fetched_at` is minimal in the NULLS FIRST
order, because `ORDER BY last_fetched_at` constrains only that column and
`LIMIT 1` keeps whichever minimal row the engine happens to order first. -/
def nextFeedAdmissible (feeds : List Feed) (f : Feed) : Prop :=
  f ∈ feeds ∧ ∀ g ∈ feeds, fetchedLe f.lastFetchedAt g.lastFetchedAt = true

/-! ## Definitions: configuration (`internal/config/config.go`) -/

/-- The `Config` struct of `config.go`: both JSON fields are pointers in Go
(`db_url`, `current_user_name`), hence `Option` here. -/
structure Config where
  url : Option String
  name : Option String
  deriving DecidableEq, Repr

/-- State of the gatorconfig file as `Read` can observe it: absent,
present but undecodable, or decodable to a `Config`. -/
inductive CfgFile where
  | missing : CfgFile
  | corrupt : CfgFile
  | valid : Option String → Option String → CfgFile
  deriving DecidableEq, Repr

/-- Embedding of `config.Read`: a missing file yields the zero `Config`,
a file that fails JSON decoding yields an error, otherwise the decoded
fields are returned. -/
def readCfg : CfgFile → Except String Config
  | .missing => .ok ⟨none, none⟩
  | .corrupt => .error "error decoding config file"
  | .valid u n => .ok ⟨u, n⟩

/-- Embedding of `config.SetUser`: read the config file, set only the
`Name` field to the given username, write the result back, and return it.
The written file is modelled by the `Config` that `write` marshals. -/
def setUser (fs : CfgFile) (userName : String) : Except String (CfgFile × Config) :=
  match readCfg fs with
  | .error e => .error ("error reading config file: " ++ e)
  | .ok cfg =>
    let cfg2 : Config := { cfg with name := some userName }
    .ok (.valid cfg2.url cfg2.name, cfg2)

/-! ## Definitions: RSS fetcher (`internal/rssfeed/rssfeed.go`) -/

/-- The Atom self-link extension of a channel (`AtomLink` struct):
`href`, `rel` and the MIME-type attribute. -/
structure AtomLink where
  href : String
  rel : String
  typeAttr : String
  deriving DecidableEq, Repr

/-- One `<item>` of the feed (`RSSItem` struct). -/
structure RSSItem where
  title : String
  link : String
  pubDate : String
  guid : String
  description : String
  deriving DecidableEq, Repr

/-- The `<channel>` element (`Channel` struct). -/
structure Channel where
  title : String
  link : String
  description : String
  generator : String
  language : String
  lastBuildDate : String
  atom : AtomLink
  items : List RSSItem
  deriving DecidableEq, Repr

/-- A parsed feed (`RSSFeed` struct). -/
structure RSSFeed where
  channel : Channel
  deriving DecidableEq, Repr

/-- Per-item unescaping loop of `FetchFeed` (lines 163–169): every field of
each item is passed through `html.UnescapeString`, abstracted as `u`. -/
def unescapeItem (u : String → String) (it : RSSItem) : RSSItem :=
  { title := u it.title
    link := u it.link
    pubDate := u it.pubDate
    guid := u it.guid
    description := u it.description }

/-- The HTML-entity post-processing block of `FetchFeed` (lines 150–169),
with `html.UnescapeString` (Go standard library) abstracted as `u`.  The
channel fields rewritten by the source are exactly `Title`, `Description`,
`Generator`, `Language`, `LastBuildDate` and the three Atom attributes;
`Channel.Link` is absent from that block and is left as parsed. -/
def unescapeRSSFeed (u : String → String) (feed : RSSFeed) : RSSFeed :=
  { channel :=
      { feed.channel with
        title := u feed.channel.title
        description := u feed.channel.description
        generator := u feed.channel.generator
        language := u feed.channel.language
        lastBuildDate := u feed.channel.lastBuildDate
        atom := ⟨u feed.channel.atom.href, u feed.channel.atom.rel,
                 u feed.channel.atom.typeAttr⟩
        items := feed.channel.items.map (unescapeItem u) } }

/-- Character-level rewriting of each occurrence of `&amp;` to `&`. -/
def unescapeAmpChars : List Char → List Char
  | '&' :: 'a' :: 'm' :: 'p' :: ';' :: rest => '&' :: unescapeAmpChars rest
  | c :: rest => c :: unescapeAmpChars rest
  | [] => []

/-- Model of Go's `html.UnescapeString` restricted to inputs whose only
entity is `&amp;` — faithful on such inputs, where the standard library
rewrites each `&amp;` to `&`.  Used only to evaluate concrete examples. -/
def htmlUnescapeAmp (s : String) : String := ⟨unescapeAmpChars s.data⟩

/-- Substring test on character lists: some suffix of the second list has
the first list as a prefix. -/
def containsChars (pat : List Char) : List Char → Bool
  | [] => pat.isEmpty
  | c :: t => pat.isPrefixOf (c :: t) || containsChars pat t

/-- Embedding of Go's `strings.Contains s pat`. -/
def containsSub (s pat : String) : Bool := containsChars pat.data s.data

/-- Failure taxonomy of `FetchFeed`, one constructor per `return nil, err`
branch of the source, in source order. -/
inductive FetchError where
  | emptyURL : FetchError
  | requestCreate : FetchError
  | network : FetchError
  | badContentType : String → FetchError
  | httpStatus : Nat → FetchError
  | readBody : FetchError
  | parseXML : FetchError
  deriving DecidableEq, Repr

/-- Outcome of the external HTTP exchange and XML unmarshalling that
`FetchFeed` drives: request construction may fail, the transport may fail,
or a response arrives with a content type, a status code, a possible
body-read failure, and (for a read body) the result of `xml.Unmarshal`. -/
inductive HttpOutcome where
  | reqError : HttpOutcome
  | netError : HttpOutcome
  | resp : String → Nat → Bool → Option RSSFeed → HttpOutcome
  deriving DecidableEq, Repr

/-- Embedding of `rssfeed.FetchFeed`'s control flow: reject an empty URL;
propagate request-construction and transport failures; reject a content
type not containing "xml"; reject a status above 299; propagate body-read
and XML-unmarshal failures; on success return the feed with the
HTML-entity post-processing block applied. -/
def fetchFeedModel (u : String → String) (feedURL : String) (o : HttpOutcome) :
    Except FetchError RSSFeed :=
  if feedURL = "" then .error .emptyURL
  else
    match o with
    | .reqError => .error .requestCreate
    | .netError => .error .network
    | .resp contentType status readFails parsed =>
      if !containsSub contentType "xml" then .error (.badContentType contentType)
      else if status > 299 then .error (.httpStatus status)
      else if readFails then .error .readBody
      else
        match parsed with
        | none => .error .parseXML
        | some feed => .ok (unescapeRSSFeed u feed)

/-! ## Definitions: scheduler (`HandlerAgg`, `scrapeFeeds` in `internal/handlers/handlers.go`) -/

/-- The feeds table as the scheduler sees it. -/
structure DB where
  feeds : List Feed
  deriving DecidableEq, Repr

/-- Embedding of the `MarkFeedFetched` query
(`UPDATE feeds SET updated_at = NOW(), last_fetched_at = NOW() WHERE id = $1`). -/
def markFeedFetched (db : DB) (feedID : Nat) (now : Int) : DB :=
  ⟨db.feeds.map fun g =>
    if g.id = feedID then { g with updatedAt := now, lastFetchedAt := some now } else g⟩

/-- Observable steps of one scheduler run, in the order the source
performs them. -/
inductive Event where
  | noFeeds : Event
  | selected : Nat → Event
  | marked : Nat → Event
  | fetchAttempt : String → Event
  | fetchFailed : Event
  | feedPrinted : String → Event
  | errLogged : Event
  | slept : Event
  deriving DecidableEq, Repr

/-- Embedding of `scrapeFeeds`: select the next feed (no rows: print and
return nil), mark it fetched, then attempt the fetch; a fetch failure is
returned as an error, a success prints the feed.  The trace records the
order of these steps; the returned `Option String` is the Go error value. -/
def scrapeFeeds (u : String → String) (oracle : String → HttpOutcome) (now : Int)
    (db : DB) : DB × List Event × Option String :=
  match getNextFeedToFetch db.feeds with
  | none => (db, [.noFeeds], none)
  | some nextFeed =>
    let db2 := markFeedFetched db nextFeed.id now
    match fetchFeedModel u nextFeed.url (oracle nextFeed.url) with
    | .error _ =>
      (db2,
       [.selected nextFeed.id, .marked nextFeed.id, .fetchAttempt nextFeed.url,
        .fetchFailed],
       some ("error fetching the marked feed " ++ nextFeed.name))
    | .ok _ =>
      (db2,
       [.selected nextFeed.id, .marked nextFeed.id, .fetchAttempt nextFeed.url,
        .feedPrinted nextFeed.name],
       none)

/-- Events of one loop body of `HandlerAgg` before the ticker wait: the
`scrapeFeeds` steps, then the error log line when `scrapeFeeds` returned a
non-nil error. -/
def cycleTrace (u : String → String) (oracle : String → HttpOutcome) (now : Int)
    (db : DB) : List Event :=
  (scrapeFeeds u oracle now db).2.1 ++
    (match (scrapeFeeds u oracle now db).2.2 with
     | some _ => [Event.errLogged]
     | none => [])

/-- Embedding of the infinite `for` loop of `HandlerAgg`, observed for a
given number of cycles: each cycle runs `scrapeFeeds`, logs a non-nil
error, then blocks on the ticker (`slept`).  `times i` is the clock value
`NOW()` of cycle `i`. -/
def aggLoop (u : String → String) (oracle : String → HttpOutcome)
    (times : Nat → Int) : Nat → Nat → DB → DB × List Event
  | _, 0, db => (db, [])
  | i, n + 1, db =>
    ((aggLoop u oracle times (i + 1) n (scrapeFeeds u oracle (times i) db).1).1,
     cycleTrace u oracle (times i) db ++ [Event.slept] ++
       (aggLoop u oracle times (i + 1) n (scrapeFeeds u oracle (times i) db).1).2)

/-- Embedding of `HandlerAgg` up to and including entering the loop:
a missing argument or an unparseable duration returns an error without
running any cycle (`time.ParseDuration` of the Go standard library is
abstracted as `pd`); a parseable duration enters the loop. -/
def handlerAgg (pd : String → Option Int) (u : String → String)
    (oracle : String → HttpOutcome) (times : Nat → Int) (args : List String)
    (n : Nat) (db : DB) : DB × List Event × Option String :=
  match args with
  | [] => (db, [], some "error: time between requests required")
  | a :: _ =>
    match pd a with
    | none => (db, [], some "error: invalid duration format")
    | some _ =>
      let r := aggLoop u oracle times 0 n db
      (r.1, r.2, none)

/-- Occurrence count of the sleep step in a trace. -/
def countSlept : List Event → Nat
  | [] => 0
  | Event.slept :: t => countSlept t + 1
  | _ :: t => countSlept t

/-! ## Definitions: post ingestion

The Go loop that converts fetched items into `posts` rows is not present
under `src/` (only its SQL declarations are: the `posts` schema in
`005_posts.sql` with `url TEXT NOT NULL UNIQUE` and the `CreatePost`
query).  The ingestor itself is therefore modelled from the spec. -/

/-- Row of the `posts` table, columns in `CreatePost` order
(`id, created_at, updated_at, title, url, description, published_at,
feed_id`); `description` and `published_at` are nullable. -/
structure Post where
  id : Nat
  createdAt : Int
  updatedAt : Int
  title : String
  url : String
  description : Option String
  publishedAt : Option Int
  feedId : Nat
  deriving DecidableEq, Repr

/-- URL membership in the posts store; the `UNIQUE` constraint of
`005_posts.sql` guards exactly this predicate. -/
def hasUrl (store : List Post) (u : String) : Bool :=
  store.any fun q => q.url = u

/-- Embedding of the `CreatePost` insert under the `url TEXT NOT NULL
UNIQUE` constraint of `005_posts.sql`: inserting a row whose url is
already present anywhere in the table is a uniqueness violation and stores
nothing; the Boolean reports whether a row was inserted. -/
def createPost (store : List Post) (p : Post) : List Post × Bool :=
  if hasUrl store p.url then (store, false) else (store ++ [p], true)

/-- Modelled from the spec: the Post Ingestor's per-item step, which is
missing from `src/` (§4.3 of the spec).  A candidate post is derived from
the item keyed by its url; an item with a missing url is skipped; the
publication-date string is parsed with the known date formats (abstracted
as `parseDate`), storing `published_at` null on failure; a uniqueness
violation on insert is treated as already-present, not an error. -/
def ingestItem (parseDate : String → Option Int) (now : Int) (feedID : Nat)
    (newID : Nat) (store : List Post) (item : RSSItem) : List Post × Bool :=
  if item.link = "" then (store, false)
  else
    createPost store
      ⟨newID, now, now, item.title, item.link, some item.description,
       parseDate item.pubDate, feedID⟩

/-- Modelled from the spec: the Post Ingestor's loop over the items of one
ParsedFeed, missing from `src/` (§4.3 of the spec).  Items are processed
in order; the returned count is the number of rows actually inserted.
Opaque row ids are modelled by the store length at insertion time. -/
def ingestItems (parseDate : String → Option Int) (now : Int) (feedID : Nat) :
    List Post → List RSSItem → List Post × Nat
  | store, [] => (store, 0)
  | store, item :: rest =>
    let r := ingestItem parseDate now feedID store.length store item
    let rec2 := ingestItems parseDate now feedID r.1 rest
    (rec2.1, (if r.2 then 1 else 0) + rec2.2)

/-! ## Helper lemmas: the NULLS FIRST order -/

theorem fetchedLe_refl (x : Option Int) : fetchedLe x x = true := by
  cases x <;> simp [fetchedLe]

theorem fetchedLe_total (x y : Option Int) :
    fetchedLe x y = true ∨ fetchedLe y x = true := by
  cases x <;> cases y <;> simp [fetchedLe] <;> omega

theorem fetchedLe_trans {x y z : Option Int}
    (hxy : fetchedLe x y = true) (hyz : fetchedLe y z = true) :
    fetchedLe x z = true := by
  cases x <;> cases y <;> cases z <;> simp_all [fetchedLe] <;> omega

theorem fetchedLe_antisymm {x y : Option Int}
    (hxy : fetchedLe x y = true) (hyx : fetchedLe y x = true) : x = y := by
  cases x <;> cases y <;> simp_all [fetchedLe] <;> omega

theorem fetchedLe_none_right {x : Option Int}
    (h : fetchedLe x none = true) : x = none := by
  cases x <;> simp_all [fetchedLe]

theorem getNextFeedToFetch_cons (f : Feed) (rest : List Feed) :
    getNextFeedToFetch (f :: rest) = some (rest.foldl pickOlder f) := rfl

theorem foldl_pickOlder_mem (l : List Feed) (a : Feed) :
    l.foldl pickOlder a = a ∨ l.foldl pickOlder a ∈ l := by
  induction l generalizing a with
  | nil => exact Or.inl rfl
  | cons g t ih =>
    rw [List.foldl_cons]
    rcases ih (pickOlder a g) with h | h
    · rw [h]
      unfold pickOlder
      by_cases hle : fetchedLe a.lastFetchedAt g.lastFetchedAt = true
      · rw [if_pos hle]; exact Or.inl rfl
      · rw [if_neg hle]; exact Or.inr (List.mem_cons_self g t)
    · exact Or.inr (List.mem_cons_of_mem g h)

theorem foldl_pickOlder_le (l : List Feed) (a : Feed) :
    fetchedLe (l.foldl pickOlder a).lastFetchedAt a.lastFetchedAt = true ∧
      ∀ g ∈ l, fetchedLe (l.foldl pickOlder a).lastFetchedAt g.lastFetchedAt = true := by
  induction l generalizing a with
  | nil => exact ⟨fetchedLe_refl _, by intro g hg; cases hg⟩
  | cons g t ih =>
    rcases ih (pickOlder a g) with ⟨hb, hrest⟩
    have hba : fetchedLe (pickOlder a g).lastFetchedAt a.lastFetchedAt = true ∧
        fetchedLe (pickOlder a g).lastFetchedAt g.lastFetchedAt = true := by
      unfold pickOlder
      by_cases hle : fetchedLe a.lastFetchedAt g.lastFetchedAt = true
      · rw [if_pos hle]
        exact ⟨fetchedLe_refl _, hle⟩
      · rw [if_neg hle]
        have hga : fetchedLe g.lastFetchedAt a.lastFetchedAt = true := by
          rcases fetchedLe_total a.lastFetchedAt g.lastFetchedAt with h | h
          · exact absurd h hle
          · exact h
        exact ⟨hga, fetchedLe_refl _⟩
    refine ⟨fetchedLe_trans hb hba.1, ?_⟩
    intro x hx
    rcases List.mem_cons.mp hx with rfl | hx
    · exact fetchedLe_trans hb hba.2
    · exact hrest x hx

/-! ## C1: the selection policy picks the least-recently-fetched feed -/

/-- C1.  On every non-empty feed table `GetNextFeedToFetch` returns a feed
whose `last_fetched_at` is, in the NULLS FIRST order, less than or equal to
that of every other feed; consequently, whenever some feed is never fetched
(NULL `last_fetched_at`), the selected feed is itself never fetched. -/
theorem getNextFeedToFetch_selects_earliest (feeds : List Feed)
    (hne : feeds ≠ []) :
    ∃ f, getNextFeedToFetch feeds = some f ∧ f ∈ feeds ∧
      (∀ g ∈ feeds, fetchedLe f.lastFetchedAt g.lastFetchedAt = true) ∧
      (∀ g ∈ feeds, g.lastFetchedAt = none → f.lastFetchedAt = none) := by
  match feeds, hne with
  | f :: rest, _ =>
    refine ⟨rest.foldl pickOlder f, getNextFeedToFetch_cons f rest, ?_, ?_, ?_⟩
    · rcases foldl_pickOlder_mem rest f with h | h
      · rw [h]; exact List.mem_cons_self f rest
      · exact List.mem_cons_of_mem f h
    · intro g hg
      rcases List.mem_cons.mp hg with rfl | hg
      · exact (foldl_pickOlder_le rest g).1
      · exact (foldl_pickOlder_le rest f).2 g hg
    · intro g hg hnone
      have hle : fetchedLe (rest.foldl pickOlder f).lastFetchedAt g.lastFetchedAt = true := by
        rcases List.mem_cons.mp hg with rfl | hg
        · exact (foldl_pickOlder_le rest g).1
        · exact (foldl_pickOlder_le rest f).2 g hg
      rw [hnone] at hle
      exact fetchedLe_none_right hle

/-- Concrete instantiation of `getNextFeedToFetch_selects_earliest` on a
three-feed table with one never-fetched feed. -/
theorem getNextFeedToFetch_selects_earliest_witness :
    ([⟨1, 0, 0, "a", "ua", 7, some 50⟩,
      ⟨2, 0, 0, "b", "ub", 7, none⟩,
      ⟨3, 0, 0, "c", "uc", 7, some 10⟩] : List Feed) ≠ [] ∧
    ∃ f, getNextFeedToFetch
        [⟨1, 0, 0, "a", "ua", 7, some 50⟩,
         ⟨2, 0, 0, "b", "ub", 7, none⟩,
         ⟨3, 0, 0, "c", "uc", 7, some 10⟩] = some f ∧
      f ∈ [⟨1, 0, 0, "a", "ua", 7, some 50⟩,
           ⟨2, 0, 0, "b", "ub", 7, none⟩,
           ⟨3, 0, 0, "c", "uc", 7, some 10⟩] ∧
      (∀ g ∈ [(⟨1, 0, 0, "a", "ua", 7, some 50⟩ : Feed),
              ⟨2, 0, 0, "b", "ub", 7, none⟩,
              ⟨3, 0, 0, "c", "uc", 7, some 10⟩],
        fetchedLe f.lastFetchedAt g.lastFetchedAt = true) ∧
      (∀ g ∈ [(⟨1, 0, 0, "a", "ua", 7, some 50⟩ : Feed),
              ⟨2, 0, 0, "b", "ub", 7, none⟩,
              ⟨3, 0, 0, "c", "uc", 7, some 10⟩],
        g.lastFetchedAt = none → f.lastFetchedAt = none) :=
  ⟨by decide, getNextFeedToFetch_selects_earliest _ (by decide)⟩

/-! ## C6: tie-breaking of the selection query -/

/-- C6 counterexample.  The claim asserts that ties on `last_fetched_at` are
broken deterministically, so that two calls of `GetNextFeedToFetch` on the
same feed set return the same feed.  The query orders by `last_fetched_at`
alone with no secondary sort key, so under its relational semantics two
distinct rows that tie for earliest (here: two never-fetched feeds) are both
admissible results — the returned feed is not determined by the query. -/
theorem getNextFeedToFetch_tie_not_determined :
    nextFeedAdmissible
      [⟨1, 0, 0, "a", "ua", 7, none⟩, ⟨2, 0, 0, "b", "ub", 7, none⟩]
      ⟨1, 0, 0, "a", "ua", 7, none⟩ ∧
    nextFeedAdmissible
      [⟨1, 0, 0, "a", "ua", 7, none⟩, ⟨2, 0, 0, "b", "ub", 7, none⟩]
      ⟨2, 0, 0, "b", "ub", 7, none⟩ ∧
    (⟨1, 0, 0, "a", "ua", 7, none⟩ : Feed) ≠ ⟨2, 0, 0, "b", "ub", 7, none⟩ := by
  refine ⟨⟨?_, ?_⟩, ⟨?_, ?_⟩, ?_⟩ <;> decide

/-- C6 amended.  Exactly one row is returned per call (`LIMIT 1`), and any
two rows admissible as the result of `GetNextFeedToFetch` on the same feed
set agree on `last_fetched_at`; when the `last_fetched_at` values of the
feed set are pairwise distinct the result is uniquely determined.  The
query itself fixes no tie-break among feeds tied for earliest, so two
calls are guaranteed to return the same feed only in the absence of
ties. -/
theorem nextFeedAdmissible_unique_of_distinct (feeds : List Feed) (f g : Feed)
    (hf : nextFeedAdmissible feeds f) (hg : nextFeedAdmissible feeds g) :
    f.lastFetchedAt = g.lastFetchedAt ∧
      ((∀ a ∈ feeds, ∀ b ∈ feeds, a.lastFetchedAt = b.lastFetchedAt → a = b) →
        f = g) := by
  have hfg : fetchedLe f.lastFetchedAt g.lastFetchedAt = true := hf.2 g hg.1
  have hgf : fetchedLe g.lastFetchedAt f.lastFetchedAt = true := hg.2 f hf.1
  have heq : f.lastFetchedAt = g.lastFetchedAt := fetchedLe_antisymm hfg hgf
  exact ⟨heq, fun hdist => hdist f hf.1 g hg.1 heq⟩

/-- Concrete instantiation of `nextFeedAdmissible_unique_of_distinct` on a
two-feed table with distinct fetch timestamps. -/
theorem nextFeedAdmissible_unique_of_distinct_witness :
    nextFeedAdmissible
      [⟨1, 0, 0, "a", "ua", 7, some 3⟩, ⟨2, 0, 0, "b", "ub", 7, some 9⟩]
      ⟨1, 0, 0, "a", "ua", 7, some 3⟩ ∧
    (⟨1, 0, 0, "a", "ua", 7, some 3⟩ : Feed).lastFetchedAt =
      (⟨1, 0, 0, "a", "ua", 7, some 3⟩ : Feed).lastFetchedAt ∧
    ((∀ a ∈ [(⟨1, 0, 0, "a", "ua", 7, some 3⟩ : Feed),
             ⟨2, 0, 0, "b", "ub", 7, some 9⟩],
       ∀ b ∈ [(⟨1, 0, 0, "a", "ua", 7, some 3⟩ : Feed),
              ⟨2, 0, 0, "b", "ub", 7, some 9⟩],
       a.lastFetchedAt = b.lastFetchedAt → a = b) →
      (⟨1, 0, 0, "a", "ua", 7, some 3⟩ : Feed) = ⟨1, 0, 0, "a", "ua", 7, some 3⟩) := by
  have hadm : nextFeedAdmissible
      [⟨1, 0, 0, "a", "ua", 7, some 3⟩, ⟨2, 0, 0, "b", "ub", 7, some 9⟩]
      ⟨1, 0, 0, "a", "ua", 7, some 3⟩ := by
    exact ⟨by decide, by decide⟩
  exact ⟨hadm, nextFeedAdmissible_unique_of_distinct _ _ _ hadm hadm⟩

/-! ## C9: SetUser frame property -/

/-- C9.  `SetUser` changes only the current-user-name field: on success the
`db_url` value that was read from the existing config file is written back
unchanged, the returned config's `Name` is the given username, and the file
now holds exactly that config. -/
theorem setUser_frame (fs : CfgFile) (userName : String) (fs2 : CfgFile)
    (c : Config) (h : setUser fs userName = .ok (fs2, c)) :
    (∃ c0, readCfg fs = .ok c0 ∧ c.url = c0.url) ∧
      c.name = some userName ∧ fs2 = .valid c.url (some userName) := by
  cases fs with
  | missing =>
    simp only [setUser, readCfg] at h
    cases h
    exact ⟨⟨⟨none, none⟩, rfl, rfl⟩, rfl, rfl⟩
  | corrupt => exact absurd h (by simp [setUser, readCfg])
  | valid u n =>
    simp only [setUser, readCfg] at h
    cases h
    exact ⟨⟨⟨u, n⟩, rfl, rfl⟩, rfl, rfl⟩

/-- Concrete instantiation of `setUser_frame`: an existing config with a
`db_url` keeps it unchanged while the username is replaced. -/
theorem setUser_frame_witness :
    (∃ c0, readCfg (.valid (some "postgres:db") (some "old")) = .ok c0 ∧
        (⟨some "postgres:db", some "piet"⟩ : Config).url = c0.url) ∧
      (⟨some "postgres:db", some "piet"⟩ : Config).name = some "piet" ∧
      (CfgFile.valid (some "postgres:db") (some "piet")) =
        .valid (⟨some "postgres:db", some "piet"⟩ : Config).url (some "piet") :=
  setUser_frame (.valid (some "postgres:db") (some "old")) "piet"
    (.valid (some "postgres:db") (some "piet"))
    ⟨some "postgres:db", some "piet"⟩ rfl

/-! ## C5: HTML-entity unescaping coverage -/

/-- C5 counterexample.  The claim says every text field of the channel —
the channel link included — is HTML-entity-unescaped before `FetchFeed`
returns.  On a feed whose channel link is `"&amp;x"` the post-processing
block returns the link still encoded (`"&amp;x"`), although unescaping
would produce `"&x"`: the channel link is the one field the block skips. -/
theorem unescapeRSSFeed_skips_channel_link :
    (unescapeRSSFeed htmlUnescapeAmp
        ⟨⟨"t", "&amp;x", "d", "g", "l", "b", ⟨"h", "r", "m"⟩, []⟩⟩).channel.link
      = "&amp;x" ∧
    htmlUnescapeAmp "&amp;x" = "&x" ∧ ("&amp;x" : String) ≠ "&x" :=
  ⟨rfl, by decide, by decide⟩

/-- C5 amended.  On every successful fetch the post-processing block of
`FetchFeed` applies HTML-entity unescaping to the channel's title,
description, generator, language, last-build date and Atom self-link
attributes, and to every field of every item — but the channel's link
field is returned unchanged, not unescaped. -/
theorem unescapeRSSFeed_fields (u : String → String) (feed : RSSFeed) :
    (unescapeRSSFeed u feed).channel.title = u feed.channel.title ∧
    (unescapeRSSFeed u feed).channel.description = u feed.channel.description ∧
    (unescapeRSSFeed u feed).channel.generator = u feed.channel.generator ∧
    (unescapeRSSFeed u feed).channel.language = u feed.channel.language ∧
    (unescapeRSSFeed u feed).channel.lastBuildDate = u feed.channel.lastBuildDate ∧
    (unescapeRSSFeed u feed).channel.atom =
      ⟨u feed.channel.atom.href, u feed.channel.atom.rel,
       u feed.channel.atom.typeAttr⟩ ∧
    (unescapeRSSFeed u feed).channel.items =
      feed.channel.items.map (unescapeItem u) ∧
    (unescapeRSSFeed u feed).channel.link = feed.channel.link :=
  ⟨rfl, rfl, rfl, rfl, rfl, rfl, rfl, rfl⟩

/-! ## Helper lemmas: scheduler traces -/

theorem countSlept_append (a b : List Event) :
    countSlept (a ++ b) = countSlept a + countSlept b := by
  induction a with
  | nil => simp [countSlept]
  | cons e t ih =>
    cases e <;> simp [countSlept, ih] <;> omega

theorem countSlept_eq_zero {l : List Event} (h : Event.slept ∉ l) :
    countSlept l = 0 := by
  induction l with
  | nil => rfl
  | cons e t ih =>
    rw [List.mem_cons, not_or] at h
    cases e with
    | slept => exact absurd rfl h.1
    | _ => exact (by simp only [countSlept]; exact ih h.2)

theorem slept_not_in_scrape (u : String → String) (oracle : String → HttpOutcome)
    (now : Int) (db : DB) : Event.slept ∉ (scrapeFeeds u oracle now db).2.1 := by
  cases hsel : getNextFeedToFetch db.feeds with
  | none => simp [scrapeFeeds, hsel]
  | some f =>
    cases hf : fetchFeedModel u f.url (oracle f.url) with
    | error e => simp [scrapeFeeds, hsel, hf]
    | ok v => simp [scrapeFeeds, hsel, hf]

theorem scrape_trace_ne_nil (u : String → String) (oracle : String → HttpOutcome)
    (now : Int) (db : DB) : (scrapeFeeds u oracle now db).2.1 ≠ [] := by
  cases hsel : getNextFeedToFetch db.feeds with
  | none => simp [scrapeFeeds, hsel]
  | some f =>
    cases hf : fetchFeedModel u f.url (oracle f.url) with
    | error e => simp [scrapeFeeds, hsel, hf]
    | ok v => simp [scrapeFeeds, hsel, hf]

theorem slept_not_in_cycleTrace (u : String → String) (oracle : String → HttpOutcome)
    (now : Int) (db : DB) : Event.slept ∉ cycleTrace u oracle now db := by
  unfold cycleTrace
  intro h
  rcases List.mem_append.mp h with h | h
  · exact slept_not_in_scrape u oracle now db h
  · cases herr : (scrapeFeeds u oracle now db).2.2 <;> rw [herr] at h <;> simp_all

theorem cycleTrace_ne_nil (u : String → String) (oracle : String → HttpOutcome)
    (now : Int) (db : DB) : cycleTrace u oracle now db ≠ [] := by
  unfold cycleTrace
  intro h
  exact scrape_trace_ne_nil u oracle now db (List.append_eq_nil.mp h).1

theorem countSlept_cycleTrace (u : String → String) (oracle : String → HttpOutcome)
    (now : Int) (db : DB) : countSlept (cycleTrace u oracle now db) = 0 :=
  countSlept_eq_zero (slept_not_in_cycleTrace u oracle now db)

theorem aggLoop_succ (u : String → String) (oracle : String → HttpOutcome)
    (times : Nat → Int) (i n : Nat) (db : DB) :
    aggLoop u oracle times i (n + 1) db =
      ((aggLoop u oracle times (i + 1) n (scrapeFeeds u oracle (times i) db).1).1,
       cycleTrace u oracle (times i) db ++ [Event.slept] ++
         (aggLoop u oracle times (i + 1) n (scrapeFeeds u oracle (times i) db).1).2) :=
  rfl

theorem prefix_append_left {α : Type} (l : List α) {a b : List α}
    (h : a <+: b) : l ++ a <+: l ++ b := by
  obtain ⟨t, rfl⟩ := h
  exact ⟨t, by simp⟩

theorem aggLoop_trace_extends (u : String → String) (oracle : String → HttpOutcome)
    (times : Nat → Int) :
    ∀ n i db, (aggLoop u oracle times i n db).2 <+: (aggLoop u oracle times i (n + 1) db).2 := by
  intro n
  induction n with
  | zero => intro i db; exact ⟨_, rfl⟩
  | succ n ih =>
    intro i db
    rw [aggLoop_succ, aggLoop_succ]
    exact prefix_append_left _ (ih (i + 1) (scrapeFeeds u oracle (times i) db).1)

theorem countSlept_aggLoop (u : String → String) (oracle : String → HttpOutcome)
    (times : Nat → Int) :
    ∀ n i db, countSlept (aggLoop u oracle times i n db).2 = n := by
  intro n
  induction n with
  | zero => intro i db; rfl
  | succ n ih =>
    intro i db
    rw [aggLoop_succ]
    simp only [countSlept_append, countSlept_cycleTrace, ih, countSlept]
    omega

/-! ## C2: mark-before-fetch ordering -/

theorem markFeedFetched_sets (db : DB) (feedID : Nat) (now : Int) :
    ∀ g ∈ (markFeedFetched db feedID now).feeds,
      g.id = feedID → g.lastFetchedAt = some now ∧ g.updatedAt = now := by
  intro g hg hid
  simp only [markFeedFetched, List.mem_map] at hg
  obtain ⟨g0, hg0, rfl⟩ := hg
  by_cases h : g0.id = feedID
  · rw [if_pos h]
    exact ⟨rfl, rfl⟩
  · rw [if_neg h] at hid
    exact absurd hid h

/-- C2.  Whenever a cycle selects a feed, `scrapeFeeds` marks it fetched
strictly before attempting the HTTP fetch — the trace begins with select,
mark, fetch-attempt in that order — and the resulting table is exactly the
one produced by `MarkFeedFetched` with the current time, for every fetch
outcome; in particular a feed whose fetch fails in the cycle still has its
`last_fetched_at` and `updated_at` advanced to the current time. -/
theorem scrapeFeeds_marks_before_fetch (u : String → String)
    (oracle : String → HttpOutcome) (now : Int) (db : DB) (f : Feed)
    (hsel : getNextFeedToFetch db.feeds = some f) :
    (scrapeFeeds u oracle now db).2.1.take 3 =
        [.selected f.id, .marked f.id, .fetchAttempt f.url] ∧
      (scrapeFeeds u oracle now db).1 = markFeedFetched db f.id now ∧
      ∀ g ∈ (scrapeFeeds u oracle now db).1.feeds,
        g.id = f.id → g.lastFetchedAt = some now ∧ g.updatedAt = now := by
  cases hf : fetchFeedModel u f.url (oracle f.url) with
  | error e =>
    refine ⟨?_, ?_, ?_⟩ <;>
      simp only [scrapeFeeds, hsel, hf, List.take] <;>
      first
      | rfl
      | exact markFeedFetched_sets db f.id now
  | ok v =>
    refine ⟨?_, ?_, ?_⟩ <;>
      simp only [scrapeFeeds, hsel, hf, List.take] <;>
      first
      | rfl
      | exact markFeedFetched_sets db f.id now

/-- Concrete instantiation of `scrapeFeeds_marks_before_fetch`: a single
never-fetched feed whose fetch fails at the transport level is marked
fetched before the attempt, and its table row is advanced. -/
theorem scrapeFeeds_marks_before_fetch_witness :
    (scrapeFeeds id (fun _ => HttpOutcome.netError) 5
        ⟨[⟨1, 0, 0, "a", "http://u", 7, none⟩]⟩).2.1.take 3 =
      [.selected 1, .marked 1, .fetchAttempt "http://u"] ∧
    (scrapeFeeds id (fun _ => HttpOutcome.netError) 5
        ⟨[⟨1, 0, 0, "a", "http://u", 7, none⟩]⟩).1 =
      markFeedFetched ⟨[⟨1, 0, 0, "a", "http://u", 7, none⟩]⟩ 1 5 := by
  have h := scrapeFeeds_marks_before_fetch id (fun _ => HttpOutcome.netError) 5
    ⟨[⟨1, 0, 0, "a", "http://u", 7, none⟩]⟩ ⟨1, 0, 0, "a", "http://u", 7, none⟩ rfl
  exact ⟨h.1, h.2.1⟩

/-! ## C3: per-feed fetch failures never stop the loop -/

/-- C3.  A per-feed fetch failure (any `FetchError`, covering transport
failure, a non-xml content type, a status at or above 300 and XML parse
failure) is logged by the `HandlerAgg` loop and the loop proceeds to the
sleep and to every later cycle: when cycle `i` fails with error `e` the
trace of the next `n + 1` cycles is the failing cycle's scrape steps
followed by the error log, the sleep, and the remaining `n` cycles; every
observation window of `n` cycles completes all `n` sleeps and is a prefix
of the window one cycle longer, so the loop never returns. -/
theorem handlerAgg_loop_survives_fetch_errors (u : String → String)
    (oracle : String → HttpOutcome) (times : Nat → Int) (i n : Nat) (db : DB)
    (e : String) (hfail : (scrapeFeeds u oracle (times i) db).2.2 = some e) :
    (aggLoop u oracle times i n db).2 <+: (aggLoop u oracle times i (n + 1) db).2 ∧
      countSlept (aggLoop u oracle times i (n + 1) db).2 = n + 1 ∧
      (aggLoop u oracle times i (n + 1) db).2 =
        (scrapeFeeds u oracle (times i) db).2.1 ++ [Event.errLogged] ++ [Event.slept] ++
          (aggLoop u oracle times (i + 1) n (scrapeFeeds u oracle (times i) db).1).2 := by
  refine ⟨aggLoop_trace_extends u oracle times n i db,
          countSlept_aggLoop u oracle times (n + 1) i db, ?_⟩
  rw [aggLoop_succ]
  unfold cycleTrace
  rw [hfail]

/-- Concrete instantiation of `handlerAgg_loop_survives_fetch_errors`: one
feed whose fetch always fails at the transport level; the two-cycle trace
still contains both sleeps and the loop keeps extending. -/
theorem handlerAgg_loop_survives_fetch_errors_witness :
    (aggLoop id (fun _ => HttpOutcome.netError) (fun _ => 0) 0 1
        ⟨[⟨1, 0, 0, "a", "http://u", 7, none⟩]⟩).2 <+:
      (aggLoop id (fun _ => HttpOutcome.netError) (fun _ => 0) 0 2
        ⟨[⟨1, 0, 0, "a", "http://u", 7, none⟩]⟩).2 ∧
    countSlept (aggLoop id (fun _ => HttpOutcome.netError) (fun _ => 0) 0 2
        ⟨[⟨1, 0, 0, "a", "http://u", 7, none⟩]⟩).2 = 2 := by
  have h := handlerAgg_loop_survives_fetch_errors id (fun _ => HttpOutcome.netError)
    (fun _ => 0) 0 1 ⟨[⟨1, 0, 0, "a", "http://u", 7, none⟩]⟩
    "error fetching the marked feed a" rfl
  exact ⟨h.1, h.2.1⟩

/-! ## C10: the first cycle runs before the first wait -/

/-- C10.  In every iteration of the `HandlerAgg` loop the cycle's work —
beginning with the scrape — happens strictly before that iteration's
ticker wait: the trace of `n + 1` cycles starts with a non-empty block of
work events containing no sleep, followed by the sleep and then the
remaining cycles.  In particular the first scrape executes immediately,
with no startup delay of one interval. -/
theorem handlerAgg_scrape_before_sleep (u : String → String)
    (oracle : String → HttpOutcome) (times : Nat → Int) (i n : Nat) (db : DB) :
    (aggLoop u oracle times i (n + 1) db).2 =
        cycleTrace u oracle (times i) db ++ [Event.slept] ++
          (aggLoop u oracle times (i + 1) n (scrapeFeeds u oracle (times i) db).1).2 ∧
      cycleTrace u oracle (times i) db ≠ [] ∧
      Event.slept ∉ cycleTrace u oracle (times i) db :=
  ⟨by rw [aggLoop_succ], cycleTrace_ne_nil u oracle (times i) db,
   slept_not_in_cycleTrace u oracle (times i) db⟩

/-! ## C8: duration validation before the loop -/

/-- C8.  With an interval argument present, `HandlerAgg` validates the
duration string before the polling loop: an unparseable string returns the
descriptive invalid-duration error with the feed table untouched and an
empty trace (no fetch cycle executed), while a parseable string enters the
loop, whose trace it returns. -/
theorem handlerAgg_duration_validation (pd : String → Option Int)
    (u : String → String) (oracle : String → HttpOutcome) (times : Nat → Int)
    (a : String) (rest : List String) (n : Nat) (db : DB) :
    (pd a = none →
      handlerAgg pd u oracle times (a :: rest) n db =
        (db, [], some "error: invalid duration format")) ∧
    ∀ d, pd a = some d →
      handlerAgg pd u oracle times (a :: rest) n db =
        ((aggLoop u oracle times 0 n db).1, (aggLoop u oracle times 0 n db).2, none) := by
  constructor
  · intro hnone
    simp [handlerAgg, hnone]
  · intro d hsome
    simp [handlerAgg, hsome]

/-- Concrete instantiation of `handlerAgg_duration_validation`: the string
"nope" is rejected with no cycle executed, and the string "1m" enters the
loop. -/
theorem handlerAgg_duration_validation_witness :
    handlerAgg (fun s => if s = "1m" then some 60 else none) id
        (fun _ => HttpOutcome.netError) (fun _ => 0) ["nope"] 1
        ⟨[⟨1, 0, 0, "a", "http://u", 7, none⟩]⟩ =
      (⟨[⟨1, 0, 0, "a", "http://u", 7, none⟩]⟩, [],
       some "error: invalid duration format") ∧
    handlerAgg (fun s => if s = "1m" then some 60 else none) id
        (fun _ => HttpOutcome.netError) (fun _ => 0) ["1m"] 1
        ⟨[⟨1, 0, 0, "a", "http://u", 7, none⟩]⟩ =
      ((aggLoop id (fun _ => HttpOutcome.netError) (fun _ => 0) 0 1
          ⟨[⟨1, 0, 0, "a", "http://u", 7, none⟩]⟩).1,
       (aggLoop id (fun _ => HttpOutcome.netError) (fun _ => 0) 0 1
          ⟨[⟨1, 0, 0, "a", "http://u", 7, none⟩]⟩).2, none) :=
  ⟨(handlerAgg_duration_validation (fun s => if s = "1m" then some 60 else none) id
      (fun _ => HttpOutcome.netError) (fun _ => 0) "nope" [] 1
      ⟨[⟨1, 0, 0, "a", "http://u", 7, none⟩]⟩).1 rfl,
   (handlerAgg_duration_validation (fun s => if s = "1m" then some 60 else none) id
      (fun _ => HttpOutcome.netError) (fun _ => 0) "1m" [] 1
      ⟨[⟨1, 0, 0, "a", "http://u", 7, none⟩]⟩).2 60 rfl⟩

/-! ## Helper lemmas: ingestion -/

theorem hasUrl_append_right (store : List Post) (p : Post) (x : String) :
    hasUrl store x = true → hasUrl (store ++ [p]) x = true := by
  intro h
  simp only [hasUrl, List.any_append, Bool.or_eq_true]
  exact Or.inl h

theorem hasUrl_ingestItem_mono (parseDate : String → Option Int) (now : Int)
    (feedID newID : Nat) (store : List Post) (item : RSSItem) (x : String)
    (h : hasUrl store x = true) :
    hasUrl (ingestItem parseDate now feedID newID store item).1 x = true := by
  unfold ingestItem createPost
  by_cases hl : item.link = ""
  · rw [if_pos hl]; exact h
  · rw [if_neg hl]
    by_cases hd : hasUrl store
        (Post.url ⟨newID, now, now, item.title, item.link, some item.description,
          parseDate item.pubDate, feedID⟩) = true
    · rw [if_pos hd]; exact h
    · rw [if_neg hd]
      exact hasUrl_append_right store _ x h

theorem hasUrl_ingestItem_self (parseDate : String → Option Int) (now : Int)
    (feedID newID : Nat) (store : List Post) (item : RSSItem)
    (hl : item.link ≠ "") :
    hasUrl (ingestItem parseDate now feedID newID store item).1 item.link = true := by
  unfold ingestItem createPost
  rw [if_neg hl]
  by_cases hd : hasUrl store
      (Post.url ⟨newID, now, now, item.title, item.link, some item.description,
        parseDate item.pubDate, feedID⟩) = true
  · rw [if_pos hd]; exact hd
  · rw [if_neg hd]
    simp [hasUrl, List.any_append]

theorem hasUrl_ingestItems_mono (parseDate : String → Option Int) (now : Int)
    (feedID : Nat) (items : List RSSItem) :
    ∀ store x, hasUrl store x = true →
      hasUrl (ingestItems parseDate now feedID store items).1 x = true := by
  induction items with
  | nil => intro store x h; exact h
  | cons item rest ih =>
    intro store x h
    exact ih _ x (hasUrl_ingestItem_mono parseDate now feedID store.length store item x h)

theorem hasUrl_after_ingestItems (parseDate : String → Option Int) (now : Int)
    (feedID : Nat) (items : List RSSItem) :
    ∀ store, ∀ i ∈ items, i.link ≠ "" →
      hasUrl (ingestItems parseDate now feedID store items).1 i.link = true := by
  induction items with
  | nil => intro store i hi; cases hi
  | cons item rest ih =>
    intro store i hi hl
    rcases List.mem_cons.mp hi with rfl | hi
    · exact hasUrl_ingestItems_mono parseDate now feedID rest _ i.link
        (hasUrl_ingestItem_self parseDate now feedID store.length store i hl)
    · exact ih _ i hi hl

theorem ingestItems_no_new (parseDate : String → Option Int) (now : Int)
    (feedID : Nat) (items : List RSSItem) :
    ∀ store, (∀ i ∈ items, i.link = "" ∨ hasUrl store i.link = true) →
      ingestItems parseDate now feedID store items = (store, 0) := by
  induction items with
  | nil => intro store _; rfl
  | cons item rest ih =>
    intro store hall
    have hstep : ingestItem parseDate now feedID store.length store item = (store, false) := by
      simp only [ingestItem, createPost]
      by_cases hl : item.link = ""
      · rw [if_pos hl]
      · rcases hall item (List.mem_cons_self item rest) with hl2 | hseen
        · exact absurd hl2 hl
        · rw [if_neg hl, if_pos hseen]
    have hrest := ih store (fun i hi => hall i (List.mem_cons_of_mem item hi))
    show ((ingestItems parseDate now feedID
        (ingestItem parseDate now feedID store.length store item).1 rest).1,
      (if (ingestItem parseDate now feedID store.length store item).2 = true then 1 else 0) +
        (ingestItems parseDate now feedID
          (ingestItem parseDate now feedID store.length store item).1 rest).2) = (store, 0)
    rw [hstep]
    simp [hrest]

/-! ## C4: idempotent ingestion -/

/-- C4.  Ingesting the same ParsedFeed a second time adds zero posts: after
one ingestion run every storable item url is present in the store, so a
second run over the same items — at any later time, for any feed — skips
every candidate as already present and returns the store unchanged with an
insert count of zero. -/
theorem ingestItems_idempotent (parseDate parseDate2 : String → Option Int)
    (now now2 : Int) (feedID feedID2 : Nat) (store : List Post)
    (items : List RSSItem) :
    ingestItems parseDate2 now2 feedID2
        (ingestItems parseDate now feedID store items).1 items =
      ((ingestItems parseDate now feedID store items).1, 0) := by
  apply ingestItems_no_new
  intro i hi
  by_cases hl : i.link = ""
  · exact Or.inl hl
  · exact Or.inr (hasUrl_after_ingestItems parseDate now feedID items store i hi hl)

/-! ## C7: unparsable publication dates never block ingestion -/

/-- C7.  An item whose publication-date string fails to parse under the
known date formats is still stored: when the date parser yields none and
the item is otherwise storable (non-empty url, url not yet present), the
ingestor inserts the post with `published_at` null — the malformed date
never causes the item to be rejected. -/
theorem ingestItem_bad_date_stored (parseDate : String → Option Int) (now : Int)
    (feedID newID : Nat) (store : List Post) (item : RSSItem)
    (hdate : parseDate item.pubDate = none) (hlink : item.link ≠ "")
    (hnew : hasUrl store item.link = false) :
    ingestItem parseDate now feedID newID store item =
      (store ++ [⟨newID, now, now, item.title, item.link, some item.description,
          none, feedID⟩], true) := by
  unfold ingestItem createPost
  rw [if_neg hlink, hdate]
  rw [if_neg (by simp [hnew])]

/-- Concrete instantiation of `ingestItem_bad_date_stored`: an item with an
unparsable date lands in the empty store with a null `published_at`. -/
theorem ingestItem_bad_date_stored_witness :
    ingestItem (fun _ => none) 7 3 0 [] ⟨"T", "http://x/a", "garbage", "g", "d"⟩ =
      ([⟨0, 7, 7, "T", "http://x/a", some "d", none, 3⟩], true) :=
  ingestItem_bad_date_stored (fun _ => none) 7 3 0 []
    ⟨"T", "http://x/a", "garbage", "g", "d"⟩ rfl (by decide) rfl

end Aggregator
